import Mathlib

/-!
# coletor/main.go : the DBLP collaboration crawler

A shallow embedding of `main` and of the callbacks it registers on the colly
collector.  The variables captured by the callbacks (`authors`, `author`,
`set`, `err`) form the state; each callback is a function on that state, and a
crawl is the list of callback invocations the collector makes.

The Go map `set` is a finite set of keys.  It is stored as a list of keys
without repetition; the order of that list carries no meaning, since the only
way the program reads it back is `for k := range set`, whose order Go leaves
unspecified.  Every `range` therefore takes a `RangeOrder`, an arbitrary
enumeration of the keys.
-/

namespace Coletor

/-- Rows of the dataset: `type Author struct`. -/
structure Author where
  Name : String
  Pid : String
  CollaboratorsPids : String
deriving DecidableEq, Repr

/-- Zero value `Author{}`. -/
def Author.zero : Author := ⟨"", "", ""⟩

/-- Key set of a `map[string]struct{}`. -/
abbrev GoSet := List String

/-- Result of `make(map[string]struct{})`. -/
def GoSet.make : GoSet := []

/-- Assignment `set[k] = struct{}{}`: adds the key unless it is already there. -/
def GoSet.insert (s : GoSet) (k : String) : GoSet :=
  if k ∈ s then s else s ++ [k]

/-- Builtin `delete(set, k)`: removes the key, a no-op when it is absent. -/
def GoSet.delete (s : GoSet) (k : String) : GoSet :=
  s.filter (fun x => decide (x ≠ k))

/-- One iteration order of `for k := range set`: some enumeration of the keys,
each visited once.  Go does not specify which. -/
structure RangeOrder where
  enum : List String → List String
  perm : ∀ l, (enum l).Perm l

/-- Iteration in the order the keys are stored. -/
def RangeOrder.stored : RangeOrder := ⟨fun l => l, fun l => List.Perm.refl l⟩

/-- Iteration in the opposite order. -/
def RangeOrder.reversed : RangeOrder := ⟨fun l => l.reverse, fun l => List.reverse_perm l⟩

/-- Library function `strings.Join(elems, sep)`. -/
def Join (elems : List String) (sep : String) : String :=
  sep.intercalate elems

/-- Variables of `main` captured by the callbacks. -/
structure State where
  authors : List Author
  author : Author
  set : GoSet
  err : Option String
deriving DecidableEq

/-- State of `main` when the collector starts: nothing scraped, zero record,
empty map, and `err` nil (a non-nil `err` from `os.OpenFile` has panicked). -/
def State.init : State := ⟨[], Author.zero, GoSet.make, none⟩

/-- Callback on `/dblpperson/@name`. -/
def onName (t : String) (s : State) : State :=
  ⟨s.authors, ⟨t, s.author.Pid, s.author.CollaboratorsPids⟩, s.set, s.err⟩

/-- Callback on `/dblpperson/@pid`. -/
def onPid (t : String) (s : State) : State :=
  ⟨s.authors, ⟨s.author.Name, t, s.author.CollaboratorsPids⟩, s.set, s.err⟩

/-- URL built by the collaborator callback. -/
def link (t : String) : String :=
  "https://dblp.uni-trier.de/pid/" ++ t ++ ".xml"

/-- Callback on `//dblpperson/r/article/author/@pid`.  The `Visit` it issues for
`link t` goes to the collector and touches none of the captured variables. -/
def onCollaborator (t : String) (s : State) : State :=
  ⟨s.authors, s.author, s.set.insert t, s.err⟩

/-- Slice `keys` at the end of the `range` loop of `OnScraped`. -/
def scrapedKeys (o : RangeOrder) (s : State) : List String :=
  o.enum (s.set.delete s.author.Pid)

/-- Record appended by `OnScraped`. -/
def scrapedAuthor (o : RangeOrder) (s : State) : Author :=
  ⟨s.author.Name, s.author.Pid, Join (scrapedKeys o s) ","⟩

/-- Callback `OnScraped`; `Except.error` is the `panic(err)`. -/
def OnScraped (o : RangeOrder) (s : State) : Except String State :=
  let authors := s.authors ++ [scrapedAuthor o s]
  match s.err with
  | some e => Except.error e
  | none => Except.ok ⟨authors, Author.zero, GoSet.make, none⟩

/-- Callback `OnError`: prints, and assigns nothing. -/
def OnError (s : State) : State := s

/-- Callback `OnRequest`: prints, and assigns nothing. -/
def OnRequest (s : State) : State := s

/-- Callback invocations made by the collector. -/
inductive Event where
  | name (t : String)
  | pid (t : String)
  | collaborator (t : String)
  | documentDone (o : RangeOrder)
  | error
  | request

/-- Effect of one callback invocation. -/
def step (s : State) : Event → Except String State
  | Event.name t => Except.ok (onName t s)
  | Event.pid t => Except.ok (onPid t s)
  | Event.collaborator t => Except.ok (onCollaborator t s)
  | Event.documentDone o => OnScraped o s
  | Event.error => Except.ok (OnError s)
  | Event.request => Except.ok (OnRequest s)

/-- Effect of a sequence of callback invocations, stopping at a panic. -/
def run (s : State) : List Event → Except String State
  | [] => Except.ok s
  | e :: es =>
    match step s e with
    | Except.error x => Except.error x
    | Except.ok s1 => run s1 es

/-- How `main` ends. -/
inductive Outcome where
  | panicked (e : String)
  | returned (printed : List Author)
deriving DecidableEq

/-- Function `main`.  The results of `os.OpenFile`, of `Seek`, the callback
invocations made between `c.Visit` and the return of `c.Wait`, and the result
of `gocsv.MarshalFile` on the scraped list are the inputs. -/
def main (openFile seek : Except String Unit) (crawl : List Event)
    (marshalFile : List Author → Except String Unit) : Outcome :=
  match openFile with
  | Except.error e => Outcome.panicked e
  | Except.ok _ =>
    match seek with
    | Except.error e => Outcome.panicked e
    | Except.ok _ =>
      match run State.init crawl with
      | Except.error e => Outcome.panicked e
      | Except.ok s =>
        let _err := marshalFile s.authors
        Outcome.returned s.authors

/-- Callback invocations while one document is parsed: the name, the pid, then
one invocation per collaborator occurrence. -/
def docParse (n p : String) (ts : List String) : List Event :=
  Event.name n :: Event.pid p :: ts.map Event.collaborator

/-- Callback invocations of one document handled on its own: the name, the pid,
one invocation per collaborator occurrence, then `OnScraped`. -/
def docEvents (n p : String) (ts : List String) (o : RangeOrder) : List Event :=
  docParse n p ts ++ [Event.documentDone o]

/-- Callback invocations of a document whose fetch fails: the request callback,
then the error callback.  No XML callback fires for it and `OnScraped` is not
reached. -/
def failedFetchEvents : List Event :=
  [Event.request, Event.error]

/-- Specification side: the distinct elements of a list in the order of their
first occurrence, the "insertion order of first discovery" of the data model. -/
def firstDiscovery : List String → List String
  | [] => []
  | t :: ts => t :: (firstDiscovery ts).filter (fun x => decide (x ≠ t))

/-- Specification side: splitting a cell on the comma, as the library function
`strings.Split(s, ",")` does; the empty string splits into one empty piece. -/
def SplitComma (s : String) : List String :=
  (s.data.splitOn ',').map String.mk

/-- Specification side: the merges of two callback sequences that keep the
order within each, the ways two documents in flight can alternate. -/
inductive Interleaving : List Event → List Event → List Event → Prop
  | nil : Interleaving [] [] []
  | left (e : Event) (as bs cs : List Event) :
      Interleaving as bs cs → Interleaving (e :: as) bs (e :: cs)
  | right (e : Event) (as bs cs : List Event) :
      Interleaving as bs cs → Interleaving as (e :: bs) (e :: cs)

/-- Effect of a callback sequence when `err` is nil, without the panic branch;
`run` agrees with it from every such state (`run_eq_exec`). -/
def exec (s : State) : List Event → State
  | [] => s
  | Event.name t :: es => exec (onName t s) es
  | Event.pid t :: es => exec (onPid t s) es
  | Event.collaborator t :: es => exec (onCollaborator t s) es
  | Event.documentDone o :: es =>
      exec ⟨s.authors ++ [scrapedAuthor o s], Author.zero, GoSet.make, none⟩ es
  | Event.error :: es => exec s es
  | Event.request :: es => exec s es

/-- Number of `OnScraped` invocations in a sequence. -/
def countDone : List Event → Nat
  | [] => 0
  | Event.documentDone _ :: es => countDone es + 1
  | _ :: es => countDone es

/-! ### Depth accounting of the collector

The collector is the colly library.  `main` reaches its depth accounting at
three places: the option `colly.MaxDepth(2)`, commented "starting author and
second tree level only", the seed `c.Visit`, and `e.Request.Visit` in the
collaborator callback.  The library functions behind them are modelled below. -/

/-- Option `colly.MaxDepth(2)` passed to `colly.NewCollector` in `main`. -/
def MaxDepth : Nat := 2

/-- Depth of the request made by `c.Visit(url)`: colly scrapes the seed at
depth 1, the first tree level. -/
def collectorVisitDepth : Nat := 1

/-- Depth of the request made by `e.Request.Visit(url)`: one more than the depth
of the request whose document is being parsed. -/
def requestVisitDepth (depth : Nat) : Nat := depth + 1

/-- Depth guard of the collector: a request is refused with `ErrMaxDepth` when
`MaxDepth > 0 && MaxDepth < depth`; `true` stands for a request let through. -/
def depthAllowed (maxDepth depth : Nat) : Bool :=
  !(decide (maxDepth > 0) && decide (maxDepth < depth))

/-- Depth of the request for a document found the given number of discovery
hops away from the seed. -/
def depthOfHops : Nat → Nat
  | 0 => collectorVisitDepth
  | h + 1 => requestVisitDepth (depthOfHops h)

/-- Whether the fetch of a document found that many hops from the seed is
dispatched: every request of the chain leading to it has to pass the guard,
since a refused document is never parsed and issues no `Visit`. -/
def dispatched (maxDepth : Nat) : Nat → Bool
  | 0 => depthAllowed maxDepth (depthOfHops 0)
  | h + 1 => dispatched maxDepth h && depthAllowed maxDepth (depthOfHops (h + 1))

/-! ### The callbacks never panic during the crawl -/

theorem exec_err (es : List Event) : ∀ s : State, s.err = none → (exec s es).err = none := by
  induction es with
  | nil => intro s h; simpa [exec] using h
  | cons e es ih =>
    intro s h
    cases e <;> simp only [exec] <;> apply ih <;> simp [onName, onPid, onCollaborator, h]

theorem run_eq_exec (es : List Event) :
    ∀ s : State, s.err = none → run s es = Except.ok (exec s es) := by
  induction es with
  | nil => intro s _; rfl
  | cons e es ih =>
    intro s h
    cases e <;> simp only [run, step, exec, OnScraped, OnError, OnRequest, h]
      <;> apply ih <;> simp [onName, onPid, onCollaborator, h]

theorem run_init (es : List Event) : run State.init es = Except.ok (exec State.init es) :=
  run_eq_exec es State.init rfl

theorem exec_append (es fs : List Event) : ∀ s : State, exec s (es ++ fs) = exec (exec s es) fs := by
  induction es with
  | nil => intro s; rfl
  | cons e es ih => intro s; cases e <;> exact ih _

theorem exec_authors_length (es : List Event) :
    ∀ s : State, (exec s es).authors.length = s.authors.length + countDone es := by
  induction es with
  | nil => intro s; simp [exec, countDone]
  | cons e es ih =>
    intro s
    cases e <;> simp only [exec, countDone, ih] <;>
      simp [onName, onPid, onCollaborator]
    omega

theorem exec_collaborators (ts : List String) : ∀ s : State,
    exec s (ts.map Event.collaborator)
      = ⟨s.authors, s.author, ts.foldl GoSet.insert s.set, s.err⟩ := by
  induction ts with
  | nil => intro s; rfl
  | cons t ts ih => intro s; simp only [List.map_cons, exec, ih, onCollaborator, List.foldl_cons]

theorem exec_docParse (n p : String) (ts : List String) :
    exec State.init (docParse n p ts)
      = ⟨[], ⟨n, p, ""⟩, ts.foldl GoSet.insert [], none⟩ := by
  simp only [docParse, exec, exec_collaborators]
  rfl

theorem enum_nil (o : RangeOrder) : o.enum [] = [] :=
  List.Perm.eq_nil (o.perm [])

theorem enum_singleton (o : RangeOrder) (a : String) : o.enum [a] = [a] :=
  List.perm_singleton.mp (o.perm [a])

/-! ### The key set -/

theorem GoSet.mem_insert (s : GoSet) (k x : String) :
    x ∈ GoSet.insert s k ↔ x ∈ s ∨ x = k := by
  unfold GoSet.insert
  split
  · constructor
    · intro h; exact Or.inl h
    · rintro (h | h)
      · exact h
      · subst h; assumption
  · simp

theorem GoSet.nodup_insert (s : GoSet) (k : String) (h : s.Nodup) :
    (GoSet.insert s k).Nodup := by
  unfold GoSet.insert
  split
  · exact h
  · rename_i hk
    rw [List.nodup_append]
    refine ⟨h, List.nodup_singleton k, ?_⟩
    intro a ha hb
    simp only [List.mem_singleton] at hb
    subst hb
    exact hk ha

theorem GoSet.mem_delete (s : GoSet) (k x : String) :
    x ∈ GoSet.delete s k ↔ x ∈ s ∧ x ≠ k := by
  simp [GoSet.delete]

theorem GoSet.nodup_delete (s : GoSet) (k : String) (h : s.Nodup) :
    (GoSet.delete s k).Nodup :=
  List.Nodup.filter _ h

theorem mem_foldl_insert (ts : List String) : ∀ (s : GoSet) (x : String),
    x ∈ ts.foldl GoSet.insert s ↔ x ∈ s ∨ x ∈ ts := by
  induction ts with
  | nil => intro s x; simp
  | cons t ts ih =>
    intro s x
    rw [List.foldl_cons, ih, GoSet.mem_insert, List.mem_cons]
    tauto

theorem nodup_foldl_insert (ts : List String) : ∀ s : GoSet,
    s.Nodup → (ts.foldl GoSet.insert s).Nodup := by
  induction ts with
  | nil => intro s h; exact h
  | cons t ts ih => intro s h; exact ih _ (GoSet.nodup_insert s t h)

theorem foldl_insert_eq (ts : List String) : ∀ s : GoSet,
    ts.foldl GoSet.insert s
      = s ++ (firstDiscovery ts).filter (fun x => decide (x ∉ s)) := by
  induction ts with
  | nil => intro s; simp [firstDiscovery]
  | cons t ts ih =>
    intro s
    rw [List.foldl_cons, ih]
    by_cases ht : t ∈ s
    · have hins : GoSet.insert s t = s := by simp [GoSet.insert, ht]
      rw [hins]
      simp only [firstDiscovery, List.filter_cons, ht, not_true_eq_false, decide_False,
        Bool.false_eq_true, if_false, List.filter_filter]
      congr 1
      apply List.filter_congr
      intro x _
      by_cases hx : x ∈ s
      · simp [hx]
      · have : x ≠ t := fun h => hx (h ▸ ht)
        simp [hx, this]
    · have hins : GoSet.insert s t = s ++ [t] := by simp [GoSet.insert, ht]
      rw [hins]
      simp only [firstDiscovery, List.filter_cons, ht, not_false_eq_true, decide_True,
        if_true, List.filter_filter, List.append_assoc, List.singleton_append]
      congr 2
      apply List.filter_congr
      intro x _
      by_cases hx : x ∈ s <;> by_cases hxt : x = t <;> simp [hx, hxt]

theorem foldl_insert_nil (ts : List String) :
    ts.foldl GoSet.insert [] = firstDiscovery ts := by
  rw [foldl_insert_eq]
  simp

theorem mem_scrapedKeys (o : RangeOrder) (s : State) (x : String) :
    x ∈ scrapedKeys o s ↔ x ∈ s.set ∧ x ≠ s.author.Pid := by
  unfold scrapedKeys
  rw [(o.perm _).mem_iff, GoSet.mem_delete]

theorem pid_not_mem_scrapedKeys (o : RangeOrder) (s : State) :
    (scrapedAuthor o s).Pid ∉ scrapedKeys o s := by
  intro h
  exact ((mem_scrapedKeys o s _).mp h).2 rfl

theorem scrapedKeys_docParse (n p : String) (ts : List String) (o : RangeOrder) :
    (scrapedKeys o (exec State.init (docParse n p ts))).Perm
      ((firstDiscovery ts).filter (fun x => decide (x ≠ p))) := by
  rw [exec_docParse]
  unfold scrapedKeys
  simp only [foldl_insert_nil]
  exact o.perm _

theorem exec_docEvents (n p : String) (ts : List String) (o : RangeOrder) :
    exec State.init (docEvents n p ts o)
      = ⟨[scrapedAuthor o (exec State.init (docParse n p ts))],
          Author.zero, GoSet.make, none⟩ := by
  rw [docEvents, exec_append, exec_docParse]
  rfl

/-! ### Joining and splitting on the comma -/

theorem intercalate_go_data (sep : String) (as : List String) : ∀ acc : String,
    (String.intercalate.go acc sep as).data
      = acc.data ++ (as.map (fun a => sep.data ++ a.data)).flatten := by
  induction as with
  | nil => intro acc; simp [String.intercalate.go]
  | cons a as ih =>
    intro acc
    simp [String.intercalate.go, ih, String.data_append, List.append_assoc]

theorem intersperse_flatten (sep : List Char) (as : List (List Char)) : ∀ a : List Char,
    (List.intersperse sep (a :: as)).flatten = a ++ (as.map (fun b => sep ++ b)).flatten := by
  induction as with
  | nil => intro a; simp
  | cons b as ih =>
    intro a
    rw [List.intersperse_cons_cons, List.flatten_cons, List.flatten_cons, ih]
    simp

theorem intercalate_data (sep : String) (l : List String) :
    (sep.intercalate l).data = List.intercalate sep.data (l.map String.data) := by
  cases l with
  | nil => rfl
  | cons a as =>
    simp only [String.intercalate, intercalate_go_data, List.intercalate, List.map_cons,
      intersperse_flatten, List.map_map]
    rfl

theorem SplitComma_Join (keys : List String) (hne : keys ≠ [])
    (hc : ∀ k ∈ keys, ',' ∉ k.data) : SplitComma (Join keys ",") = keys := by
  unfold SplitComma Join
  rw [intercalate_data]
  have hsep : ("," : String).data = [','] := rfl
  rw [hsep, List.splitOn_intercalate]
  · rw [List.map_map]
    conv_rhs => rw [← List.map_id keys]
    rfl
  · intro l hl
    obtain ⟨k, hk, rfl⟩ := List.mem_map.mp hl
    exact hc k hk
  · intro h
    exact hne (List.map_eq_nil_iff.mp h)

theorem Join_eq_empty_iff (keys : List String) (hk : ∀ k ∈ keys, k ≠ "") :
    Join keys "," = "" ↔ keys = [] := by
  constructor
  · intro h
    cases keys with
    | nil => rfl
    | cons a as =>
      exfalso
      have hd : (Join (a :: as) ",").data = [] := by rw [h]
      unfold Join at hd
      simp only [String.intercalate, intercalate_go_data, List.append_eq_nil] at hd
      apply hk a (List.mem_cons_self a as)
      exact String.ext hd.1
  · intro h; subst h; rfl

theorem ok_congr (a b : State) (h : a = b) :
    (Except.ok a : Except String State) = Except.ok b := by
  rw [h]

/-! ### Finalisation and the scenarios -/

/-- C7, finalize step.  From any state whose `err` is nil (as it is throughout the
crawl), `OnScraped` appends exactly one record to `authors`, carrying the
current `Name` and `Pid` and the joined key list, leaves the earlier records in
place, and resets `author` and `set`; the name, pid, collaborator and error
callbacks leave `authors` unchanged; and after any callback sequence from the
initial state, `authors` has as many records as `OnScraped` has run. -/
theorem finalize_step :
    (∀ (authors : List Author) (author : Author) (set : GoSet) (o : RangeOrder),
      ∃ R : Author,
        step ⟨authors, author, set, none⟩ (Event.documentDone o)
          = Except.ok ⟨authors ++ [R], Author.zero, GoSet.make, none⟩
        ∧ R.Name = author.Name ∧ R.Pid = author.Pid
        ∧ R.CollaboratorsPids = Join (scrapedKeys o ⟨authors, author, set, none⟩) ",")
    ∧ (∀ (s : State) (t : String),
        step s (Event.name t) = Except.ok (onName t s) ∧ (onName t s).authors = s.authors)
    ∧ (∀ (s : State) (t : String),
        step s (Event.pid t) = Except.ok (onPid t s) ∧ (onPid t s).authors = s.authors)
    ∧ (∀ (s : State) (t : String),
        step s (Event.collaborator t) = Except.ok (onCollaborator t s)
          ∧ (onCollaborator t s).authors = s.authors)
    ∧ (∀ s : State, step s Event.error = Except.ok s)
    ∧ (∀ es : List Event, ∃ s : State,
        run State.init es = Except.ok s ∧ s.authors.length = countDone es) := by
  refine ⟨?_, ?_, ?_, ?_, ?_, ?_⟩
  · intro authors author set o
    exact ⟨scrapedAuthor o ⟨authors, author, set, none⟩, rfl, rfl, rfl, rfl⟩
  · intro s t; exact ⟨rfl, rfl⟩
  · intro s t; exact ⟨rfl, rfl⟩
  · intro s t; exact ⟨rfl, rfl⟩
  · intro s; rfl
  · intro es
    refine ⟨exec State.init es, run_init es, ?_⟩
    rw [exec_authors_length]
    simp [State.init]

/-- C3, end-to-end scenario.  The seed document (name "A. Example", pid
"47/8013", one collaborator "1/2345") followed by the collaborator document (name
"B. Collaborator", pid "1/2345", no collaborator) leaves exactly the two records
("A. Example", "47/8013", "1/2345") and ("B. Collaborator", "1/2345", ""), in that
order, whatever the map iteration orders. -/
theorem end_to_end_scenario (o1 o2 : RangeOrder) :
    run State.init
        (docEvents "A. Example" "47/8013" ["1/2345"] o1
          ++ docEvents "B. Collaborator" "1/2345" [] o2)
      = Except.ok
          ⟨[⟨"A. Example", "47/8013", "1/2345"⟩, ⟨"B. Collaborator", "1/2345", ""⟩],
            Author.zero, GoSet.make, none⟩ := by
  rw [run_init]
  have h1 : GoSet.delete (GoSet.insert GoSet.make "1/2345") "47/8013" = ["1/2345"] := by decide
  have h2 : GoSet.delete GoSet.make "1/2345" = [] := rfl
  simp only [docEvents, docParse, List.map_cons, List.map_nil, List.cons_append,
    List.nil_append, exec, onName, onPid, onCollaborator, scrapedAuthor, scrapedKeys,
    State.init, h1, h2, enum_nil, enum_singleton]
  rfl

/-- C9, writer failure.  Once the file is opened and positioned, `main` returns
normally with the scraped list for every crawl and every result of
`gocsv.MarshalFile`, an error included: the error is stored in `err` and never
looked at, so no panic follows it. -/
theorem main_ignores_writer_error :
    (∀ (crawl : List Event) (marshalFile : List Author → Except String Unit),
      ∃ printed : List Author,
        main (Except.ok ()) (Except.ok ()) crawl marshalFile = Outcome.returned printed)
    ∧ main (Except.ok ()) (Except.ok ()) [] (fun _ => Except.error "write failed")
        = Outcome.returned [] := by
  refine ⟨?_, rfl⟩
  intro crawl marshalFile
  refine ⟨(exec State.init crawl).authors, ?_⟩
  simp only [main, run_init]

/-- C4, cross-document leakage.  Documents A (collaborator "x") and B
(collaborator "y") are handled at the same time and B finishes first: the
record appended for B joins a key list that is a rearrangement of "x" and "y",
so it carries "x", found in A alone, and the record appended for A is empty. -/
theorem interleaved_documents_leak (oA oB : RangeOrder) :
    Interleaving (docEvents "A" "a" ["x"] oA) (docEvents "B" "b" ["y"] oB)
      [Event.name "A", Event.pid "a", Event.collaborator "x",
        Event.name "B", Event.pid "b", Event.collaborator "y",
        Event.documentDone oB, Event.documentDone oA]
    ∧ ∃ keys : List String, keys.Perm ["x", "y"] ∧
        run State.init
          [Event.name "A", Event.pid "a", Event.collaborator "x",
            Event.name "B", Event.pid "b", Event.collaborator "y",
            Event.documentDone oB, Event.documentDone oA]
        = Except.ok ⟨[⟨"B", "b", Join keys ","⟩, ⟨"", "", ""⟩],
            Author.zero, GoSet.make, none⟩ := by
  constructor
  · exact Interleaving.left _ _ _ _ (Interleaving.left _ _ _ _ (Interleaving.left _ _ _ _
      (Interleaving.right _ _ _ _ (Interleaving.right _ _ _ _ (Interleaving.right _ _ _ _
        (Interleaving.right _ _ _ _ (Interleaving.left _ _ _ _ Interleaving.nil)))))))
  · refine ⟨oB.enum ["x", "y"], oB.perm _, ?_⟩
    rw [run_init]
    have h1 : GoSet.delete (GoSet.insert (GoSet.insert GoSet.make "x") "y") "b" = ["x", "y"] := by
      decide
    have h2 : GoSet.delete GoSet.make "" = [] := rfl
    simp only [exec, onName, onPid, onCollaborator, scrapedAuthor, scrapedKeys,
      State.init, h1, h2, enum_nil, Author.zero]
    rfl

/-- C6 as stated fails: after the name, pid and collaborator "9/9" callbacks of
a document the error callback fires, and the next document, which lists no
collaborator, is finalised with "9/9" in its record: nothing was discarded. -/
theorem error_isolation_counterexample :
    run State.init
        [Event.name "F", Event.pid "f", Event.collaborator "9/9", Event.error,
          Event.name "B", Event.pid "b", Event.documentDone RangeOrder.stored]
      = Except.ok ⟨[⟨"B", "b", "9/9"⟩], Author.zero, GoSet.make, none⟩ := by
  rw [run_init]
  exact ok_congr _ _ (by decide)

/-- C6, amended.  The error callback changes nothing: it appends no record and
leaves the current record and the key set as they are, so dropping an error
invocation from any callback sequence leaves the result the same.  A document
that ends in the error callback before any of its name, pid and collaborator
callbacks has fired, as one whose fetch fails does, therefore leaves no trace:
the run ends, and ends as if that document had not been handled at all. -/
theorem error_changes_nothing :
    (∀ s : State, step s Event.error = Except.ok s)
    ∧ (∀ pre post : List Event,
        run State.init (pre ++ Event.error :: post) = run State.init (pre ++ post))
    ∧ (∀ pre post : List Event,
        run State.init (pre ++ failedFetchEvents ++ post) = run State.init (pre ++ post))
    ∧ (∀ pre post : List Event, ∃ s : State,
        run State.init (pre ++ failedFetchEvents ++ post) = Except.ok s
        ∧ run State.init (pre ++ post) = Except.ok s) := by
  have h1 : ∀ pre post : List Event,
      exec State.init (pre ++ Event.error :: post) = exec State.init (pre ++ post) := by
    intro pre post
    rw [exec_append, exec_append]
    rfl
  have h2 : ∀ pre post : List Event,
      exec State.init (pre ++ failedFetchEvents ++ post) = exec State.init (pre ++ post) := by
    intro pre post
    rw [exec_append, exec_append, exec_append]
    rfl
  refine ⟨fun s => rfl, ?_, ?_, ?_⟩
  · intro pre post
    rw [run_init, run_init, h1]
  · intro pre post
    rw [run_init, run_init, h2]
  · intro pre post
    refine ⟨exec State.init (pre ++ post), ?_, run_init _⟩
    rw [run_init, h2]

/-! ### Records of one document -/

/-- C1, self-exclusion.  Every callback sequence from the initial state runs to
the end, and every record R of the resulting `authors` was appended by an
`OnScraped` invocation of the sequence, from the state s0 reached just before
it: R is the record built there, its `CollaboratorsPids` is the join of the key
list `keys` of that invocation, and `R.Pid` is not in that key list, wherever
collaborator invocations with that identifier occurred. -/
theorem self_exclusion (es : List Event) :
    ∃ s : State, run State.init es = Except.ok s ∧
      ∀ R ∈ s.authors, ∃ (pre : List Event) (o : RangeOrder) (post : List Event) (s0 : State),
        es = pre ++ Event.documentDone o :: post
        ∧ run State.init pre = Except.ok s0
        ∧ R = scrapedAuthor o s0
        ∧ R.CollaboratorsPids = Join (scrapedKeys o s0) ","
        ∧ R.Pid ∉ scrapedKeys o s0 := by
  refine ⟨exec State.init es, run_init es, ?_⟩
  induction es using List.reverseRecOn with
  | nil => intro R hR; simp [exec, State.init] at hR
  | append_singleton es e ih =>
    intro R hR
    rw [exec_append] at hR
    have keep : R ∈ (exec State.init es).authors →
        ∃ (pre : List Event) (o : RangeOrder) (post : List Event) (s0 : State),
          es ++ [e] = pre ++ Event.documentDone o :: post
          ∧ run State.init pre = Except.ok s0
          ∧ R = scrapedAuthor o s0
          ∧ R.CollaboratorsPids = Join (scrapedKeys o s0) ","
          ∧ R.Pid ∉ scrapedKeys o s0 := by
      intro h
      obtain ⟨pre, o, post, s0, h1, h2, h3, h4, h5⟩ := ih R h
      exact ⟨pre, o, post ++ [e], s0, by simp [h1], h2, h3, h4, h5⟩
    cases e with
    | name t => exact keep hR
    | pid t => exact keep hR
    | collaborator t => exact keep hR
    | error => exact keep hR
    | request => exact keep hR
    | documentDone o =>
      simp only [exec, List.mem_append, List.mem_singleton] at hR
      rcases hR with hR | hR
      · exact keep hR
      · refine ⟨es, o, [], exec State.init es, rfl, run_init es, hR, ?_, ?_⟩
        · rw [hR]; rfl
        · rw [hR]; exact pid_not_mem_scrapedKeys o _

/-- Instance of C1: the document lists its own pid "p" as a collaborator before
and after the pid callback, next to the collaborator "q". -/
theorem self_exclusion_witness :
    ∃ s : State,
      run State.init [Event.collaborator "p", Event.pid "p", Event.collaborator "p",
        Event.collaborator "q", Event.documentDone RangeOrder.stored] = Except.ok s ∧
      ∀ R ∈ s.authors, ∃ (pre : List Event) (o : RangeOrder) (post : List Event) (s0 : State),
        [Event.collaborator "p", Event.pid "p", Event.collaborator "p",
          Event.collaborator "q", Event.documentDone RangeOrder.stored]
            = pre ++ Event.documentDone o :: post
        ∧ run State.init pre = Except.ok s0
        ∧ R = scrapedAuthor o s0
        ∧ R.CollaboratorsPids = Join (scrapedKeys o s0) ","
        ∧ R.Pid ∉ scrapedKeys o s0 :=
  self_exclusion _

/-- C2, per-document dedup.  For a document handled alone from the initial
state, with s0 the state when `OnScraped` fires: the run leaves the single
record built from s0, with the document's name and pid, and every collaborator
identifier t of the document other than its pid occurs exactly once in the key
list joined into `CollaboratorsPids`, however often it was listed. -/
theorem per_document_dedup (n p : String) (ts : List String) (o : RangeOrder) (t : String)
    (ht : t ∈ ts) (hp : t ≠ p) :
    ∃ s0 : State, run State.init (docParse n p ts) = Except.ok s0
      ∧ run State.init (docEvents n p ts o)
          = Except.ok ⟨[scrapedAuthor o s0], Author.zero, GoSet.make, none⟩
      ∧ (scrapedAuthor o s0).Name = n ∧ (scrapedAuthor o s0).Pid = p
      ∧ (scrapedAuthor o s0).CollaboratorsPids = Join (scrapedKeys o s0) ","
      ∧ (scrapedKeys o s0).count t = 1 := by
  refine ⟨exec State.init (docParse n p ts), run_init _, ?_, ?_, ?_, rfl, ?_⟩
  · rw [run_init, exec_docEvents]
  · rw [exec_docParse]; rfl
  · rw [exec_docParse]; rfl
  · apply List.count_eq_one_of_mem
    · unfold scrapedKeys
      apply (o.perm _).nodup_iff.mpr
      apply GoSet.nodup_delete
      rw [exec_docParse]
      exact nodup_foldl_insert ts [] List.nodup_nil
    · rw [mem_scrapedKeys, exec_docParse]
      refine ⟨?_, hp⟩
      exact (mem_foldl_insert ts [] t).mpr (Or.inr ht)

/-- Instance of C2: "1/2345" is listed three times, next to the document's own
pid and one other collaborator. -/
theorem per_document_dedup_witness :
    ∃ s0 : State,
      run State.init (docParse "A" "47/8013" ["1/2345", "47/8013", "1/2345", "9/9", "1/2345"])
        = Except.ok s0
      ∧ run State.init
          (docEvents "A" "47/8013" ["1/2345", "47/8013", "1/2345", "9/9", "1/2345"]
            RangeOrder.reversed)
          = Except.ok ⟨[scrapedAuthor RangeOrder.reversed s0], Author.zero, GoSet.make, none⟩
      ∧ (scrapedAuthor RangeOrder.reversed s0).Name = "A"
      ∧ (scrapedAuthor RangeOrder.reversed s0).Pid = "47/8013"
      ∧ (scrapedAuthor RangeOrder.reversed s0).CollaboratorsPids
          = Join (scrapedKeys RangeOrder.reversed s0) ","
      ∧ (scrapedKeys RangeOrder.reversed s0).count "1/2345" = 1 :=
  per_document_dedup "A" "47/8013" ["1/2345", "47/8013", "1/2345", "9/9", "1/2345"]
    RangeOrder.reversed "1/2345" (by decide) (by decide)

/-- C8 as stated fails: with collaborators "x" then "y" and a map iteration that
visits "y" first, the record reads "y,x", not the first-discovery order. -/
theorem collaborator_order_counterexample :
    ¬ (∀ (n p : String) (ts : List String) (o : RangeOrder),
        run State.init (docEvents n p ts o)
          = Except.ok ⟨[⟨n, p, Join ((firstDiscovery ts).filter (fun x => decide (x ≠ p))) ","⟩],
              Author.zero, GoSet.make, none⟩) := by
  intro h
  have h1 := h "A" "a" ["x", "y"] RangeOrder.reversed
  rw [run_init] at h1
  have h2 : (exec State.init (docEvents "A" "a" ["x", "y"] RangeOrder.reversed)).authors
      = [⟨"A", "a", "y,x"⟩] := by decide
  have h3 : Join ((firstDiscovery ["x", "y"]).filter (fun x => decide (x ≠ "a"))) ","
      = "x,y" := by decide
  rw [Except.ok.injEq] at h1
  rw [h1, h3] at h2
  revert h2
  decide

/-- C8, amended.  For a document handled alone, the key list joined into
`CollaboratorsPids` is a rearrangement of the document's distinct collaborator
identifiers other than its pid taken in first-discovery order: the same
identifiers, each once, in the order the map iteration happens to take. -/
theorem collaborator_order_is_some_rearrangement
    (n p : String) (ts : List String) (o : RangeOrder) :
    ∃ keys : List String,
      keys.Perm ((firstDiscovery ts).filter (fun x => decide (x ≠ p)))
      ∧ run State.init (docEvents n p ts o)
          = Except.ok ⟨[⟨n, p, Join keys ","⟩], Author.zero, GoSet.make, none⟩ := by
  refine ⟨scrapedKeys o (exec State.init (docParse n p ts)), scrapedKeys_docParse n p ts o, ?_⟩
  rw [run_init, exec_docEvents]
  simp only [scrapedAuthor, exec_docParse]

/-- C10 as stated fails: a document without collaborators has the empty cell,
and splitting the empty string on the comma yields one empty piece, not the
empty set of identifiers. -/
theorem comma_split_counterexample :
    ¬ (∀ (n p : String) (ts : List String) (o : RangeOrder),
        (∀ t ∈ ts, t ≠ "" ∧ ',' ∉ t.data) →
        ∃ R : Author,
          run State.init (docEvents n p ts o) = Except.ok ⟨[R], Author.zero, GoSet.make, none⟩
          ∧ (∀ x, x ∈ SplitComma R.CollaboratorsPids ↔ (x ∈ ts ∧ x ≠ p))) := by
  intro h
  obtain ⟨R, h1, h2⟩ := h "A" "a" [] RangeOrder.stored (by decide)
  rw [run_init, Except.ok.injEq] at h1
  have h3 : (exec State.init (docEvents "A" "a" [] RangeOrder.stored)).authors
      = [⟨"A", "a", ""⟩] := by decide
  rw [h1] at h3
  have h4 : R = ⟨"A", "a", ""⟩ := by simpa using h3
  subst h4
  have h5 := (h2 "").mp (by decide)
  exact absurd h5.1 (by decide)

/-- C10, amended.  For a document handled alone whose collaborator identifiers
are all non-empty and comma-free: when it has a collaborator other than its own
pid, splitting the cell `CollaboratorsPids` on the comma yields exactly the
document's collaborator identifiers other than its pid; the cell is the empty
string exactly when there is none, and then splitting yields the single empty
piece.  With an empty identifier the cell can be empty though an identifier
was found, and with an identifier that holds a comma the split can differ from
the identifiers. -/
theorem comma_join_round_trip :
    (∀ (n p : String) (ts : List String) (o : RangeOrder),
      (∀ t ∈ ts, t ≠ "" ∧ ',' ∉ t.data) →
      ∃ R : Author,
        run State.init (docEvents n p ts o) = Except.ok ⟨[R], Author.zero, GoSet.make, none⟩
        ∧ ((∃ x ∈ ts, x ≠ p) → ∀ x, x ∈ SplitComma R.CollaboratorsPids ↔ (x ∈ ts ∧ x ≠ p))
        ∧ (R.CollaboratorsPids = "" ↔ ∀ x ∈ ts, x = p)
        ∧ ((∀ x ∈ ts, x = p) → SplitComma R.CollaboratorsPids = [""]))
    ∧ (∃ (n p : String) (ts : List String) (o : RangeOrder) (R : Author),
        "" ∈ ts ∧ (∀ t ∈ ts, ',' ∉ t.data)
        ∧ run State.init (docEvents n p ts o) = Except.ok ⟨[R], Author.zero, GoSet.make, none⟩
        ∧ ¬ (R.CollaboratorsPids = "" ↔ ∀ x ∈ ts, x = p))
    ∧ (∃ (n p : String) (ts : List String) (o : RangeOrder) (R : Author),
        (∀ t ∈ ts, t ≠ "") ∧ (∃ x ∈ ts, x ≠ p)
        ∧ run State.init (docEvents n p ts o) = Except.ok ⟨[R], Author.zero, GoSet.make, none⟩
        ∧ ¬ (∀ x, x ∈ SplitComma R.CollaboratorsPids ↔ (x ∈ ts ∧ x ≠ p))) := by
  refine ⟨?_, ?_, ?_⟩
  · intro n p ts o hts
    have hmem : ∀ x, x ∈ scrapedKeys o (exec State.init (docParse n p ts)) ↔ (x ∈ ts ∧ x ≠ p) := by
      intro x
      rw [mem_scrapedKeys, exec_docParse]
      simp only [mem_foldl_insert, List.not_mem_nil, false_or]
    have hcomma : ∀ k ∈ scrapedKeys o (exec State.init (docParse n p ts)), ',' ∉ k.data :=
      fun k hk => (hts k ((hmem k).mp hk).1).2
    have hfull : ∀ k ∈ scrapedKeys o (exec State.init (docParse n p ts)), k ≠ "" :=
      fun k hk => (hts k ((hmem k).mp hk).1).1
    have hnil : scrapedKeys o (exec State.init (docParse n p ts)) = [] ↔ ∀ x ∈ ts, x = p := by
      rw [List.eq_nil_iff_forall_not_mem]
      constructor
      · intro h x hx
        by_contra hxp
        exact h x ((hmem x).mpr ⟨hx, hxp⟩)
      · intro h x hx
        exact ((hmem x).mp hx).2 (h x ((hmem x).mp hx).1)
    refine ⟨scrapedAuthor o (exec State.init (docParse n p ts)), ?_, ?_, ?_, ?_⟩
    · rw [run_init, exec_docEvents]
    · rintro ⟨y, hy, hyp⟩ x
      show x ∈ SplitComma (Join (scrapedKeys o (exec State.init (docParse n p ts))) ",") ↔ _
      have hk : scrapedKeys o (exec State.init (docParse n p ts)) ≠ [] :=
        List.ne_nil_of_mem ((hmem y).mpr ⟨hy, hyp⟩)
      rw [SplitComma_Join _ hk hcomma, hmem x]
    · show Join (scrapedKeys o (exec State.init (docParse n p ts))) "," = "" ↔ _
      rw [Join_eq_empty_iff _ hfull, hnil]
    · intro hall
      show SplitComma (Join (scrapedKeys o (exec State.init (docParse n p ts))) ",") = [""]
      rw [hnil.mpr hall]
      decide
  · refine ⟨"A", "a", [""], RangeOrder.stored, ⟨"A", "a", ""⟩, by decide, by decide, ?_, ?_⟩
    · rw [run_init]; exact ok_congr _ _ (by decide)
    · intro h
      have h1 := h.mp rfl "" (by decide)
      revert h1
      decide
  · refine ⟨"A", "a", ["x,y"], RangeOrder.stored, ⟨"A", "a", "x,y"⟩, by decide, by decide,
      ?_, ?_⟩
    · rw [run_init]; exact ok_congr _ _ (by decide)
    · intro h
      have h1 := (h "x").mp (by decide)
      revert h1
      decide

/-- Instance of C10: collaborators "1/2345" (twice), "9/9" and the document's own
pid, with the map iterated in reverse. -/
theorem comma_join_round_trip_witness :
    ∃ R : Author,
      run State.init (docEvents "A" "47/8013" ["1/2345", "9/9", "47/8013", "1/2345"]
          RangeOrder.reversed)
        = Except.ok ⟨[R], Author.zero, GoSet.make, none⟩
      ∧ ((∃ x ∈ ["1/2345", "9/9", "47/8013", "1/2345"], x ≠ "47/8013") →
          ∀ x, x ∈ SplitComma R.CollaboratorsPids
            ↔ (x ∈ ["1/2345", "9/9", "47/8013", "1/2345"] ∧ x ≠ "47/8013"))
      ∧ (R.CollaboratorsPids = "" ↔ ∀ x ∈ ["1/2345", "9/9", "47/8013", "1/2345"], x = "47/8013")
      ∧ ((∀ x ∈ ["1/2345", "9/9", "47/8013", "1/2345"], x = "47/8013") →
          SplitComma R.CollaboratorsPids = [""]) :=
  comma_join_round_trip.1 "A" "47/8013" ["1/2345", "9/9", "47/8013", "1/2345"]
    RangeOrder.reversed (by decide)

/-! ### Depth bound -/

theorem depthOfHops_eq (h : Nat) : depthOfHops h = h + 1 := by
  induction h with
  | zero => rfl
  | succ h ih => simp [depthOfHops, requestVisitDepth, ih]

theorem dispatched_iff (h : Nat) : dispatched MaxDepth h = true ↔ h ≤ 1 := by
  induction h with
  | zero => decide
  | succ h ih =>
    simp only [dispatched, Bool.and_eq_true, ih, depthOfHops_eq, depthAllowed, MaxDepth]
    constructor
    · rintro ⟨h1, h2⟩
      simp at h2
      omega
    · intro h1
      have h0 : h = 0 := by omega
      subst h0
      decide

/-- C5 as stated fails: under `MaxDepth(2)` the document two discovery hops from
the seed has depth 3 and its fetch is not dispatched. -/
theorem depth_bound_counterexample :
    depthOfHops 2 = 3 ∧ depthAllowed MaxDepth (depthOfHops 2) = false
      ∧ dispatched MaxDepth 2 = false := by
  decide

/-- C5, amended.  Under `MaxDepth(2)` the seed request has depth 1 and every
`Visit` issued from the collaborator callback has depth one more than the
document it was found in; the seed and the documents one hop from it are
dispatched, a document two or more hops away never is, so no fetch is
dispatched for a hop count above 2. -/
theorem depth_bound :
    depthOfHops 0 = 1
    ∧ (∀ h : Nat, depthOfHops (h + 1) = depthOfHops h + 1)
    ∧ dispatched MaxDepth 0 = true
    ∧ dispatched MaxDepth 1 = true
    ∧ (∀ h : Nat, dispatched MaxDepth h = true ↔ h ≤ 1)
    ∧ (∀ h : Nat, 2 < h → dispatched MaxDepth h = false) := by
  refine ⟨rfl, fun h => rfl, by decide, by decide, dispatched_iff, ?_⟩
  intro h hh
  cases hd : dispatched MaxDepth h with
  | false => rfl
  | true =>
    have := (dispatched_iff h).mp hd
    omega

end Coletor
